import Mathlib

/-!
Verification development for the SimplestMediaPlayer audio pipeline.

The definitions below are a shallow embedding of the C++ sources:
`AudioDecoder.cpp` / `AudioDecoder.h` (audio decode worker, bounded frame
queue, SDL output callback, seek), `MediaPlayer.cpp` / `MediaPlayer.h`
(façade: play/pause/stop, volume, current time) and `VideoDecoder.cpp`
(only its `seekToTime` / `getCurrentTime`, which `MediaPlayer` calls).

Modelling conventions:
* `double` is modelled as `ℚ` (the code performs only assignments,
  comparisons and one clamp on these values, no rounding-sensitive float
  arithmetic is in scope of the claims);
* byte buffers (`std::vector<uint8_t>`) are `List Nat`;
* calls into FFmpeg/SDL (`av_read_frame`, `avcodec_send_packet`,
  `swr_convert`, `av_seek_frame`, device open/close) are oracles: their
  outcomes are explicit inputs of the embedded functions;
* the decoding thread together with the concurrent consumer (the SDL
  callback) and the control thread is modelled as a labelled transition
  system `AudioDecoder.Step` whose producer program counter follows the
  statements of `AudioDecoder::decodingLoop` / `decodeNextFrame`.
-/

/-- Embedding of `struct AudioFrame` from `AudioDecoder.h`: converted bytes, the raw
`pts`, and `timestamp = pts * av_q2d(audioStream->time_base)` in seconds. -/
structure AudioFrame where
  data : List Nat
  pts : Int
  timestamp : ℚ
deriving DecidableEq

/-- The fields of class `AudioDecoder` that the claims are about.
`fileOpen` models `formatContext != nullptr`.  The SDL device handle,
FFmpeg context pointers and the C++ thread object are not part of the
observable state of any claim and are left out. -/
structure AudioDecoderState where
  fileOpen : Bool
  isDecoding : Bool
  playbackStarted : Bool
  playbackPaused : Bool
  shouldStop : Bool
  currentTime : ℚ
  audioFrameQueue : List AudioFrame
  audioBuffer : List Nat
  bufferPosition : Nat
deriving DecidableEq

namespace AudioDecoder

/-- Embedding of `AudioDecoder::getCurrentTime`: `return currentTime.load();`. -/
def getCurrentTime (s : AudioDecoderState) : ℚ :=
  s.currentTime

/-- Embedding of `AudioDecoder::isPlaying`: `return playbackStarted && !playbackPaused;`. -/
def isPlaying (s : AudioDecoderState) : Bool :=
  s.playbackStarted && !s.playbackPaused

/-- Embedding of `AudioDecoder::pausePlayback` (the SDL_PauseAudioDevice call is device
I/O and not modelled). -/
def pausePlayback (s : AudioDecoderState) : AudioDecoderState :=
  if s.playbackStarted && !s.playbackPaused then
    { s with playbackPaused := true }
  else s

/-- Embedding of `AudioDecoder::resumePlayback`. -/
def resumePlayback (s : AudioDecoderState) : AudioDecoderState :=
  if s.playbackStarted && s.playbackPaused then
    { s with playbackPaused := false }
  else s

/-- Embedding of `AudioDecoder::stopPlayback`: raises the stop flags, joins the decoder
thread, closes the device, clears the queue and callback buffer, and
resets the clock to `0.0`.  Joining the thread and closing the device are
external effects; the state updates are modelled. -/
def stopPlayback (s : AudioDecoderState) : AudioDecoderState :=
  if !s.playbackStarted then s
  else
    { s with
      shouldStop := true
      isDecoding := false
      audioFrameQueue := []
      audioBuffer := []
      bufferPosition := 0
      playbackStarted := false
      playbackPaused := false
      currentTime := 0 }

/-- Embedding of `AudioDecoder::seekToTime(double seconds)`.  `seekOk` is the oracle for
`av_seek_frame(formatContext, -1, seconds * AV_TIME_BASE, AVSEEK_FLAG_BACKWARD) >= 0`;
`avcodec_flush_buffers` acts only on the external codec context.  Returns
the C++ `bool` result together with the post state. -/
def seekToTime (s : AudioDecoderState) (seconds : ℚ) (seekOk : Bool) :
    Bool × AudioDecoderState :=
  if !s.fileOpen then (false, s)
  else
    let wasPlaying := isPlaying s
    let s1 := if wasPlaying then pausePlayback s else s
    if !seekOk then (false, s1)
    else
      let s2 := { s1 with
        audioFrameQueue := []
        audioBuffer := []
        bufferPosition := 0
        currentTime := seconds }
      (true, if wasPlaying then resumePlayback s2 else s2)

end AudioDecoder

/-- The fields of `VideoDecoder` used by `MediaPlayer`: `isOpen`, whether
`frame` is non-null (`hasFrame`), the quantity `frame->pts * timeBase`
(`frameTime`, the time of the last decoded frame), and `endOfStream`. -/
structure VideoDecoderState where
  isOpen : Bool
  hasFrame : Bool
  frameTime : ℚ
  endOfStream : Bool
deriving DecidableEq

namespace VideoDecoder

/-- Embedding of `VideoDecoder::getCurrentTime`:
`if (!isOpen || !frame) return 0.0; return frame->pts * timeBase;`. -/
def getCurrentTime (v : VideoDecoderState) : ℚ :=
  if !v.isOpen || !v.hasFrame then 0 else v.frameTime

/-- Embedding of `VideoDecoder::seekToTime`: fails when closed or when `av_seek_frame`
fails (oracle `seekOk`); on success flushes the codec and clears
`endOfStream`.  Note that it does not touch `frame`, hence `frameTime`
is unchanged. -/
def seekToTime (v : VideoDecoderState) (seekOk : Bool) :
    Bool × VideoDecoderState :=
  if !v.isOpen then (false, v)
  else if !seekOk then (false, v)
  else (true, { v with endOfStream := false })

end VideoDecoder

/-- The fields of class `MediaPlayer` relevant to the claims. -/
structure MediaPlayerState where
  playing : Bool
  muted : Bool
  volume : ℚ
  hasVideo : Bool
  hasAudio : Bool
  video : VideoDecoderState
  audio : AudioDecoderState
deriving DecidableEq

namespace MediaPlayer

/-- Embedding of `std::clamp(v, lo, hi)` as used by `MediaPlayer::setVolume`. -/
def clamp (v lo hi : ℚ) : ℚ :=
  if v < lo then lo else if hi < v then hi else v

/-- Embedding of `MediaPlayer::setVolume`: `volume = std::clamp(newVolume, 0.0f, 1.0f);`
followed only by logging — the comment in the source says
"For now, just store the value". -/
def setVolume (m : MediaPlayerState) (newVolume : ℚ) : MediaPlayerState :=
  { m with volume := clamp newVolume 0 1 }

/-- Embedding of `MediaPlayer::getVolume`. -/
def getVolume (m : MediaPlayerState) : ℚ :=
  m.volume

/-- Embedding of `MediaPlayer::getCurrentTime`: the video decoder's clock is preferred
whenever a video stream is present. -/
def getCurrentTime (m : MediaPlayerState) : ℚ :=
  if m.hasVideo then VideoDecoder.getCurrentTime m.video
  else if m.hasAudio then AudioDecoder.getCurrentTime m.audio
  else 0

/-- Embedding of `MediaPlayer::pause`. -/
def pause (m : MediaPlayerState) : MediaPlayerState :=
  if (m.hasVideo || m.hasAudio) && m.playing then
    { m with
      audio := if m.hasAudio then AudioDecoder.pausePlayback m.audio else m.audio
      playing := false }
  else m

/-- Embedding of `MediaPlayer::stop`: stop audio playback, clear `playing`, then seek
both decoders back to `0.0` when they are open.  `videoSeekOk` /
`audioSeekOk` are the `av_seek_frame` oracles of the two decoders. -/
def stop (m : MediaPlayerState) (videoSeekOk audioSeekOk : Bool) :
    MediaPlayerState :=
  if m.hasVideo || m.hasAudio then
    let a1 := if m.hasAudio then AudioDecoder.stopPlayback m.audio else m.audio
    let v1 := if m.hasVideo && m.video.isOpen then
        (VideoDecoder.seekToTime m.video videoSeekOk).2 else m.video
    let a2 := if m.hasAudio && a1.fileOpen then
        (AudioDecoder.seekToTime a1 0 audioSeekOk).2 else a1
    { m with playing := false, video := v1, audio := a2 }
  else m

end MediaPlayer

namespace AudioDecoder

/-- Embedding of `memcpy(stream + pos, src, src.length)` on a byte list. -/
def listWrite (s : List Nat) (pos : Nat) (src : List Nat) : List Nat :=
  s.take pos ++ src ++ s.drop (pos + src.length)

/-- Result of the `while (bytesNeeded > 0)` loop of
`AudioDecoder::fillAudioBuffer`: the filled stream plus the final values
of `audioBuffer`, `bufferPosition`, `audioFrameQueue`, `currentTime`. -/
structure FillResult where
  stream : List Nat
  buffer : List Nat
  bufPos : Nat
  queue : List AudioFrame
  time : ℚ
deriving DecidableEq

/-- The `while (bytesNeeded > 0)` loop of `AudioDecoder::fillAudioBuffer`.
One recursive step is one loop iteration: when the current buffer is
exhausted, pop the next frame (adopting its data and timestamp) or break
if the queue is empty; then copy
`min(bytesNeeded, availableBytes)` bytes into the stream. -/
def fillLoop (bytesNeeded streamPos : Nat) (stream buffer : List Nat)
    (bufPos : Nat) (queue : List AudioFrame) (time : ℚ) : FillResult :=
  if _h1 : bytesNeeded = 0 then ⟨stream, buffer, bufPos, queue, time⟩
  else if _h2 : buffer.length ≤ bufPos then
    match queue with
    | [] => ⟨stream, buffer, bufPos, queue, time⟩
    | f :: rest =>
        fillLoop (bytesNeeded - min bytesNeeded f.data.length)
          (streamPos + min bytesNeeded f.data.length)
          (listWrite stream streamPos (f.data.take (min bytesNeeded f.data.length)))
          f.data (min bytesNeeded f.data.length) rest f.timestamp
  else
    fillLoop (bytesNeeded - min bytesNeeded (buffer.length - bufPos))
      (streamPos + min bytesNeeded (buffer.length - bufPos))
      (listWrite stream streamPos
        ((buffer.drop bufPos).take (min bytesNeeded (buffer.length - bufPos))))
      buffer (bufPos + min bytesNeeded (buffer.length - bufPos)) queue time
termination_by (queue.length, bytesNeeded)
decreasing_by
  · exact Prod.Lex.left _ _ (by simp)
  · exact Prod.Lex.right _ (by omega)

/-- Embedding of `AudioDecoder::fillAudioBuffer(stream, len)`: zero the stream
(`memset`), return at once when paused, otherwise run the fill loop.
Returns the bytes handed to the device and the post state (the callback
itself is `void`: there is no error result). -/
def fillAudioBuffer (s : AudioDecoderState) (len : Nat) :
    List Nat × AudioDecoderState :=
  if s.playbackPaused then (List.replicate len 0, s)
  else
    let r := fillLoop len 0 (List.replicate len 0) s.audioBuffer
      s.bufferPosition s.audioFrameQueue s.currentTime
    (r.stream,
      { s with
        audioBuffer := r.buffer
        bufferPosition := r.bufPos
        audioFrameQueue := r.queue
        currentTime := r.time })

/-- The bytes available to the callback, in consumption order: the not yet
consumed tail of the current block followed by the queued blocks. -/
def pendingBytes (buffer : List Nat) (bufPos : Nat)
    (queue : List AudioFrame) : List Nat :=
  buffer.drop bufPos ++ (queue.map AudioFrame.data).flatten

/-- Abbreviation: `pendingBytes` of a decoder state. -/
def availData (s : AudioDecoderState) : List Nat :=
  pendingBytes s.audioBuffer s.bufferPosition s.audioFrameQueue

/-- The sequence of clock values observed after each of a series of
callback invocations with the given buffer lengths. -/
def fillTrace (s : AudioDecoderState) : List Nat → List ℚ
  | [] => []
  | len :: rest =>
      ((fillAudioBuffer s len).2).currentTime ::
        fillTrace (fillAudioBuffer s len).2 rest

/-- The spec's queue-order invariant (§3, AudioBlock): the clock does not
exceed the first queued timestamp and queued timestamps are
non-decreasing. -/
def ClockInv (s : AudioDecoderState) : Prop :=
  List.Chain' (· ≤ ·) (s.currentTime :: s.audioFrameQueue.map AudioFrame.timestamp)

/-- Oracle inputs of `AudioDecoder::convertAudioFrame` for one decoded
`AVFrame`: the result of `swr_get_out_samples`, the result of
`swr_convert`, the converted bytes (after the final resize), and the
frame's `pts`. -/
structure ConvInput where
  outSamples : Int
  converted : Int
  outBytes : List Nat
  pts : Int
deriving DecidableEq

/-- Embedding of `AudioDecoder::convertAudioFrame`: fails (returns `false`, i.e.
`none`) when `swr_get_out_samples` yields no samples *or* when
`swr_convert` reports an error; otherwise produces the frame with
`timestamp = pts * av_q2d(audioStream->time_base)` (`tb` is the time
base as a rational). -/
def convertAudioFrame (tb : ℚ) (c : ConvInput) : Option AudioFrame :=
  if c.outSamples ≤ 0 then none
  else if c.converted < 0 then none
  else some ⟨c.outBytes, c.pts, (c.pts : ℚ) * tb⟩

/-- Outcome of one `av_read_frame` call: end of file, or a packet with its
stream index, the success of `avcodec_send_packet`, and the conversion
oracles of the frames `avcodec_receive_frame` yields. -/
inductive ReadResult where
  | eof
  | packet (streamIndex : Int) (sendOk : Bool) (frames : List ConvInput)
deriving DecidableEq

/-- Embedding of `AudioDecoder::decodeNextFrame` as one atomic function: returns the
C++ `bool` (`false` stops `decodingLoop`) and the queue after the pushes
of the successfully converted frames.  `idx` is `audioStreamIndex`. -/
def decodeNextFrame (idx : Int) (tb : ℚ) (r : ReadResult)
    (queue : List AudioFrame) : Bool × List AudioFrame :=
  match r with
  | .eof => (false, queue)
  | .packet i sendOk cs =>
      if i ≠ idx then (true, queue)
      else if !sendOk then (false, queue)
      else (true, queue ++ cs.filterMap (convertAudioFrame tb))

/-- Why `AudioDecoder::decodingLoop` ended.  `stopFlag`: the
`shouldStop` / `isDecoding` flags (raised together by `stopPlayback`)
were observed; `eofReached`: `av_read_frame` reported end of file;
`sendErr`: `avcodec_send_packet` failed for an audio packet. -/
inductive ExitCause where
  | stopFlag
  | eofReached
  | sendErr
deriving DecidableEq

/-- Program counter of the decoding thread inside `decodingLoop`.
`atCheck` is the top of the `while` body (watermark block next),
`waiting` is inside `queueCondition.wait`, `atStopCheck` is the
`if (shouldStop) break;` statement, `pushing` is the
`avcodec_receive_frame` / push loop of `decodeNextFrame` with the
remaining frames to push, and `done` is loop exit. -/
inductive PC where
  | atCheck
  | waiting
  | atStopCheck
  | pushing
  | done (c : ExitCause)
deriving DecidableEq

/-- Joint state of the decoding thread, the shared frame queue, the stop
flag and the remaining input of `av_read_frame`.  `pending` holds the
converted frames of the current packet that are not yet pushed. -/
structure LoopState where
  queue : List AudioFrame
  pending : List AudioFrame
  packets : List ReadResult
  shouldStop : Bool
  pc : PC
deriving DecidableEq

/-- Constant context of the loop: `audioStreamIndex` and the audio
stream's time base. -/
structure Ctx where
  idx : Int
  tb : ℚ
deriving DecidableEq

/-- Transition labels: producer steps (`checkPass` … `pushDone`), the
consumer's `audioFrameQueue.pop()` inside `fillAudioBuffer` (`pop`), and
the control thread raising the stop flags (`setStop`). -/
inductive Label where
  | checkExit
  | checkPass
  | checkBlock
  | wake
  | stopObserved
  | readEof
  | readNonAudio
  | readSendErr
  | readFrames
  | push (f : AudioFrame)
  | pushDone
  | pop
  | setStop
deriving DecidableEq

/-- One interleaved step of the system around `decodingLoop`.  The
producer transitions mirror the statements of
`AudioDecoder::decodingLoop` / `decodeNextFrame`:
* `checkExit`: the `while (isDecoding && !shouldStop)` condition fails;
* `checkPass` / `checkBlock` / `wake`: the watermark block
  `if (size > 10) wait(..., size <= 5 || shouldStop)`;
* `stopObserved`: `if (shouldStop) break;`;
* `readEof`: `av_read_frame < 0`, `decodeNextFrame` returns `false`;
* `readNonAudio`: `packet.stream_index != audioStreamIndex`, skipped;
* `readSendErr`: `avcodec_send_packet < 0`, `decodeNextFrame` returns
  `false` and the loop breaks;
* `readFrames`: the receive loop converts the packet's frames; failed
  conversions are dropped;
* `push` / `pushDone`: the pushes of the converted frames, interleavable
  with consumer `pop`s;
* `pop`: the SDL callback consuming the queue head;
* `setStop`: `stopPlayback` raising `shouldStop`. -/
inductive Step (ctx : Ctx) : LoopState → Label → LoopState → Prop where
  | checkExit (s : LoopState) :
      s.pc = .atCheck → s.shouldStop = true →
      Step ctx s .checkExit { s with pc := .done .stopFlag }
  | checkPass (s : LoopState) :
      s.pc = .atCheck → s.shouldStop = false → s.queue.length ≤ 10 →
      Step ctx s .checkPass { s with pc := .atStopCheck }
  | checkBlock (s : LoopState) :
      s.pc = .atCheck → s.shouldStop = false → 10 < s.queue.length →
      Step ctx s .checkBlock { s with pc := .waiting }
  | wake (s : LoopState) :
      s.pc = .waiting → (s.queue.length ≤ 5 ∨ s.shouldStop = true) →
      Step ctx s .wake { s with pc := .atStopCheck }
  | stopObserved (s : LoopState) :
      s.pc = .atStopCheck → s.shouldStop = true →
      Step ctx s .stopObserved { s with pc := .done .stopFlag }
  | readEof (s : LoopState) (rest : List ReadResult) :
      s.pc = .atStopCheck → s.shouldStop = false →
      s.packets = .eof :: rest →
      Step ctx s .readEof { s with packets := rest, pc := .done .eofReached }
  | readNonAudio (s : LoopState) (i : Int) (sendOk : Bool)
      (cs : List ConvInput) (rest : List ReadResult) :
      s.pc = .atStopCheck → s.shouldStop = false →
      s.packets = .packet i sendOk cs :: rest → i ≠ ctx.idx →
      Step ctx s .readNonAudio { s with packets := rest, pc := .atCheck }
  | readSendErr (s : LoopState) (cs : List ConvInput) (rest : List ReadResult) :
      s.pc = .atStopCheck → s.shouldStop = false →
      s.packets = .packet ctx.idx false cs :: rest →
      Step ctx s .readSendErr { s with packets := rest, pc := .done .sendErr }
  | readFrames (s : LoopState) (cs : List ConvInput) (rest : List ReadResult) :
      s.pc = .atStopCheck → s.shouldStop = false →
      s.packets = .packet ctx.idx true cs :: rest →
      Step ctx s .readFrames
        { s with packets := rest,
                 pending := cs.filterMap (convertAudioFrame ctx.tb),
                 pc := .pushing }
  | push (s : LoopState) (f : AudioFrame) (rest : List AudioFrame) :
      s.pc = .pushing → s.pending = f :: rest →
      Step ctx s (.push f) { s with queue := s.queue ++ [f], pending := rest }
  | pushDone (s : LoopState) :
      s.pc = .pushing → s.pending = [] →
      Step ctx s .pushDone { s with pc := .atCheck }
  | pop (s : LoopState) (f : AudioFrame) (rest : List AudioFrame) :
      s.queue = f :: rest →
      Step ctx s .pop { s with queue := rest }
  | setStop (s : LoopState) :
      Step ctx s .setStop { s with shouldStop := true }

/-- Reachability under any interleaving of producer, consumer and control
steps. -/
def LoopReach (ctx : Ctx) : LoopState → LoopState → Prop :=
  Relation.ReflTransGen (fun a b => ∃ l, Step ctx a l b)

/-- Initial state of one run of `decodingLoop` over input `pkts`
(`startPlayback` clears the queue and the stop flag before spawning the
thread). -/
def initLoop (pkts : List ReadResult) : LoopState :=
  ⟨[], [], pkts, false, .atCheck⟩

/-- A packet whose receive/convert loop yields at most `k` pushed
frames. -/
def kBounded (tb : ℚ) (k : Nat) : ReadResult → Prop
  | .eof => True
  | .packet _ _ cs => (cs.filterMap (convertAudioFrame tb)).length ≤ k

lemma listWrite_length (s src : List Nat) (pos : Nat)
    (h : pos + src.length ≤ s.length) :
    (listWrite s pos src).length = s.length := by
  simp only [listWrite, List.length_append, List.length_take, List.length_drop]
  omega

lemma listWrite_take (s src : List Nat) (pos : Nat)
    (h : pos + src.length ≤ s.length) :
    (listWrite s pos src).take (pos + src.length) = s.take pos ++ src := by
  have h1 : (s.take pos ++ src).length = pos + src.length := by
    simp only [List.length_append, List.length_take]
    omega
  rw [listWrite]
  exact List.take_left' h1

lemma listWrite_drop (s src : List Nat) (pos i : Nat)
    (h : pos + src.length ≤ s.length) (hi : pos + src.length ≤ i) :
    (listWrite s pos src).drop i = s.drop i := by
  have h1 : (s.take pos ++ src).length = pos + src.length := by
    simp only [List.length_append, List.length_take]
    omega
  rw [listWrite, List.drop_append_eq_append_drop, h1]
  have h2 : (s.take pos ++ src).drop i = [] :=
    List.drop_eq_nil_of_le (by omega)
  rw [h2, List.nil_append, List.drop_drop]
  congr 1
  omega

/-- Shared algebra of one copy step of the fill loop: copying
`D.take tc` at offset `sp` and recursing turns the recursion's
characterization into the characterization at `(sp, bn)`. -/
lemma fillStep_assemble (stream D : List Nat) (sp bn tc : Nat)
    (htcb : tc ≤ bn) (htcD : tc ≤ D.length) (hlen : stream.length = sp + bn) :
    (listWrite stream sp (D.take tc)).take (sp + tc) ++
        (D.drop tc).take (bn - tc) ++
        (listWrite stream sp (D.take tc)).drop
          (sp + tc + min (bn - tc) (D.length - tc)) =
      stream.take sp ++ D.take bn ++ stream.drop (sp + min bn D.length) := by
  have hlt : (D.take tc).length = tc := by
    simp only [List.length_take]
    omega
  have hb : sp + (D.take tc).length ≤ stream.length := by omega
  have htake : (listWrite stream sp (D.take tc)).take (sp + tc) =
      stream.take sp ++ D.take tc := by
    have := listWrite_take stream (D.take tc) sp hb
    rwa [hlt] at this
  have hdrop : (listWrite stream sp (D.take tc)).drop
      (sp + tc + min (bn - tc) (D.length - tc)) =
      stream.drop (sp + tc + min (bn - tc) (D.length - tc)) := by
    apply listWrite_drop stream (D.take tc) sp _ hb
    omega
  have hidx : sp + tc + min (bn - tc) (D.length - tc) =
      sp + min bn D.length := by omega
  rw [htake, hdrop, hidx]
  congr 1
  rw [List.append_assoc]
  congr 1
  rw [← List.take_add]
  congr 1
  omega

/-- Characterization of the fill loop's output bytes: starting at offset
`sp` into a stream of exactly the right length, it writes the next
`bytesNeeded` available bytes (current block tail, then queued blocks, in
FIFO order) and leaves the rest of the stream untouched. -/
lemma fillLoop_stream (bytesNeeded streamPos : Nat) (stream buffer : List Nat)
    (bufPos : Nat) (queue : List AudioFrame) (time : ℚ) :
    stream.length = streamPos + bytesNeeded →
    (fillLoop bytesNeeded streamPos stream buffer bufPos queue time).stream =
      stream.take streamPos ++
        (pendingBytes buffer bufPos queue).take bytesNeeded ++
        stream.drop (streamPos +
          min bytesNeeded (pendingBytes buffer bufPos queue).length) := by
  induction bytesNeeded, streamPos, stream, buffer, bufPos, queue, time
    using fillLoop.induct with
  | case1 sp stream buffer bp queue t =>
    intro hlen
    rw [fillLoop.eq_def]
    simp [List.take_append_drop]
  | case2 bn sp stream buffer bp t h1 h2 =>
    intro hlen
    have hD : pendingBytes buffer bp [] = [] := by
      simp [pendingBytes, List.drop_eq_nil_of_le h2]
    rw [fillLoop.eq_def, dif_neg h1, dif_pos h2]
    simp [hD, List.take_append_drop]
  | case3 bn sp stream buffer bp t h1 h2 f rest ih =>
    intro hlen
    have htcb : min bn f.data.length ≤ bn := Nat.min_le_left ..
    have htcf : min bn f.data.length ≤ f.data.length := Nat.min_le_right ..
    rw [fillLoop.eq_def, dif_neg h1, dif_pos h2]
    have hlw : (listWrite stream sp (f.data.take (min bn f.data.length))).length =
        sp + min bn f.data.length + (bn - min bn f.data.length) := by
      rw [listWrite_length]
      · omega
      · simp only [List.length_take]
        omega
    rw [ih hlw]
    have hDeq : pendingBytes buffer bp (f :: rest) =
        f.data ++ (rest.map AudioFrame.data).flatten := by
      simp [pendingBytes, List.drop_eq_nil_of_le h2]
    have hD'eq : pendingBytes f.data (min bn f.data.length) rest =
        (pendingBytes buffer bp (f :: rest)).drop (min bn f.data.length) := by
      rw [hDeq, pendingBytes, List.drop_append_of_le_length htcf]
    have hchunk : f.data.take (min bn f.data.length) =
        (pendingBytes buffer bp (f :: rest)).take (min bn f.data.length) := by
      rw [hDeq, List.take_append_of_le_length htcf]
    rw [hD'eq, hchunk, List.length_drop]
    exact fillStep_assemble stream (pendingBytes buffer bp (f :: rest)) sp bn
      (min bn f.data.length) htcb
      (by rw [hDeq]; simp only [List.length_append]; omega) hlen
  | case4 bn sp stream buffer bp queue t h1 h2 ih =>
    intro hlen
    have htcb : min bn (buffer.length - bp) ≤ bn := Nat.min_le_left ..
    have htca : min bn (buffer.length - bp) ≤ (buffer.drop bp).length := by
      rw [List.length_drop]
      exact Nat.min_le_right ..
    rw [fillLoop.eq_def, dif_neg h1, dif_neg h2]
    have hlw : (listWrite stream sp
        ((buffer.drop bp).take (min bn (buffer.length - bp)))).length =
        sp + min bn (buffer.length - bp) + (bn - min bn (buffer.length - bp)) := by
      rw [listWrite_length]
      · omega
      · simp only [List.length_take, List.length_drop]
        omega
    rw [ih hlw]
    have hD'eq : pendingBytes buffer (bp + min bn (buffer.length - bp)) queue =
        (pendingBytes buffer bp queue).drop (min bn (buffer.length - bp)) := by
      rw [pendingBytes, pendingBytes, List.drop_append_eq_append_drop,
        List.drop_drop]
      have hz : min bn (buffer.length - bp) - (buffer.drop bp).length = 0 := by
        rw [List.length_drop]
        omega
      rw [hz, List.drop_zero]
    have hchunk : (buffer.drop bp).take (min bn (buffer.length - bp)) =
        (pendingBytes buffer bp queue).take (min bn (buffer.length - bp)) := by
      rw [pendingBytes, List.take_append_of_le_length htca]
    rw [hD'eq, hchunk, List.length_drop]
    exact fillStep_assemble stream (pendingBytes buffer bp queue) sp bn
      (min bn (buffer.length - bp)) htcb
      (le_trans htca (by rw [pendingBytes]; simp only [List.length_append]; omega))
      hlen

/-- The fill loop only advances the clock: it sets the clock to the
timestamp of each popped frame, and under the queue-order invariant the
resulting clock is at least the starting one and the invariant is
preserved for the remaining queue. -/
lemma fillLoop_clock (bytesNeeded streamPos : Nat) (stream buffer : List Nat)
    (bufPos : Nat) (queue : List AudioFrame) (time : ℚ) :
    List.Chain' (· ≤ ·) (time :: queue.map AudioFrame.timestamp) →
    time ≤ (fillLoop bytesNeeded streamPos stream buffer bufPos queue time).time ∧
      List.Chain' (· ≤ ·)
        ((fillLoop bytesNeeded streamPos stream buffer bufPos queue time).time ::
          (fillLoop bytesNeeded streamPos stream buffer bufPos queue time).queue.map
            AudioFrame.timestamp) := by
  induction bytesNeeded, streamPos, stream, buffer, bufPos, queue, time
    using fillLoop.induct with
  | case1 sp stream buffer bp queue t =>
    intro h
    rw [fillLoop.eq_def]
    exact ⟨le_refl t, h⟩
  | case2 bn sp stream buffer bp t h1 h2 =>
    intro h
    rw [fillLoop.eq_def, dif_neg h1, dif_pos h2]
    exact ⟨le_refl t, h⟩
  | case3 bn sp stream buffer bp t h1 h2 f rest ih =>
    intro h
    rw [fillLoop.eq_def, dif_neg h1, dif_pos h2]
    rw [List.map_cons, List.chain'_cons] at h
    have hrec := ih h.2
    exact ⟨le_trans h.1 hrec.1, hrec.2⟩
  | case4 bn sp stream buffer bp queue t h1 h2 ih =>
    intro h
    rw [fillLoop.eq_def, dif_neg h1, dif_neg h2]
    exact ih h

lemma fillAudioBuffer_paused (s : AudioDecoderState) (len : Nat)
    (h : s.playbackPaused = true) :
    fillAudioBuffer s len = (List.replicate len 0, s) := by
  simp [fillAudioBuffer, h]

/-- The bytes handed to the device: the available data (tail of the
current block, then the queued blocks, FIFO) truncated to `len`, padded
with zeroes (silence) when the data runs out. -/
lemma fillAudioBuffer_stream (s : AudioDecoderState) (len : Nat)
    (h : s.playbackPaused = false) :
    (fillAudioBuffer s len).1 =
      (availData s).take len ++
        List.replicate (len - (availData s).length) 0 := by
  have hr := fillLoop_stream len 0 (List.replicate len 0) s.audioBuffer
    s.bufferPosition s.audioFrameQueue s.currentTime (by simp)
  simp only [fillAudioBuffer, h, Bool.false_eq_true, if_false]
  rw [availData, hr]
  simp only [List.take_zero, List.nil_append, Nat.zero_add, List.drop_replicate]
  have hmin : len -
      min len (pendingBytes s.audioBuffer s.bufferPosition s.audioFrameQueue).length =
      len - (pendingBytes s.audioBuffer s.bufferPosition s.audioFrameQueue).length := by
    omega
  rw [hmin]

lemma fillAudioBuffer_length (s : AudioDecoderState) (len : Nat) :
    (fillAudioBuffer s len).1.length = len := by
  rcases hp : s.playbackPaused with _ | _
  · rw [fillAudioBuffer_stream s len hp]
    simp only [List.length_append, List.length_take, List.length_replicate]
    omega
  · rw [fillAudioBuffer_paused s len hp]
    simp

/-- One callback invocation never decreases the clock and preserves the
queue-order invariant. -/
lemma fillAudioBuffer_mono (s : AudioDecoderState) (len : Nat)
    (h : ClockInv s) :
    s.currentTime ≤ ((fillAudioBuffer s len).2).currentTime ∧
      ClockInv (fillAudioBuffer s len).2 := by
  rcases hp : s.playbackPaused with _ | _
  · have hc := fillLoop_clock len 0 (List.replicate len 0) s.audioBuffer
      s.bufferPosition s.audioFrameQueue s.currentTime h
    simp only [fillAudioBuffer, hp, Bool.false_eq_true, if_false]
    exact ⟨hc.1, hc.2⟩
  · rw [fillAudioBuffer_paused s len hp]
    exact ⟨le_refl _, h⟩

/-- Inductive invariant of the decoding loop: remaining packets are
`k`-bounded, `pending` is populated only in the push phase, reaching the
stop check (without the stop flag) implies the watermark check passed,
and the queued plus still-to-push frames never exceed `10 + k`. -/
def LoopInv (tb : ℚ) (k : Nat) (s : LoopState) : Prop :=
  (∀ r ∈ s.packets, kBounded tb k r) ∧
  (s.pc ≠ .pushing → s.pending = []) ∧
  (s.pc = .atStopCheck → s.shouldStop = true ∨ s.queue.length ≤ 10) ∧
  s.queue.length + s.pending.length ≤ 10 + k

lemma LoopInv_step (ctx : Ctx) (k : Nat) (s s' : LoopState) (l : Label)
    (hstep : Step ctx s l s') (hinv : LoopInv ctx.tb k s) :
    LoopInv ctx.tb k s' := by
  obtain ⟨hpk, hpend, hsc, hlen⟩ := hinv
  cases hstep with
  | checkExit h1 h2 =>
    refine ⟨hpk, fun _ => hpend (by simp [h1]), fun h => ?_, hlen⟩
    simp at h
  | checkPass h1 h2 h3 =>
    exact ⟨hpk, fun _ => hpend (by simp [h1]), fun _ => Or.inr h3, hlen⟩
  | checkBlock h1 h2 h3 =>
    refine ⟨hpk, fun _ => hpend (by simp [h1]), fun h => ?_, hlen⟩
    simp at h
  | wake h1 h2 =>
    refine ⟨hpk, fun _ => hpend (by simp [h1]), fun _ => ?_, hlen⟩
    rcases h2 with h2 | h2
    · exact Or.inr (show s.queue.length ≤ 10 by omega)
    · exact Or.inl h2
  | stopObserved h1 h2 =>
    refine ⟨hpk, fun _ => hpend (by simp [h1]), fun h => ?_, hlen⟩
    simp at h
  | readEof rest h1 h2 h3 =>
    refine ⟨fun r hr => hpk r ?_, fun _ => hpend (by simp [h1]),
      fun h => ?_, hlen⟩
    · rw [h3]
      exact List.mem_cons_of_mem _ hr
    · simp at h
  | readNonAudio i sendOk cs rest h1 h2 h3 h4 =>
    refine ⟨fun r hr => hpk r ?_, fun _ => hpend (by simp [h1]),
      fun h => ?_, hlen⟩
    · rw [h3]
      exact List.mem_cons_of_mem _ hr
    · simp at h
  | readSendErr cs rest h1 h2 h3 =>
    refine ⟨fun r hr => hpk r ?_, fun _ => hpend (by simp [h1]),
      fun h => ?_, hlen⟩
    · rw [h3]
      exact List.mem_cons_of_mem _ hr
    · simp at h
  | readFrames cs rest h1 h2 h3 =>
    have hq : s.queue.length ≤ 10 := by
      rcases hsc h1 with h | h
      · rw [h] at h2
        cases h2
      · exact h
    have hk : (cs.filterMap (convertAudioFrame ctx.tb)).length ≤ k := by
      have := hpk (.packet ctx.idx true cs) (by rw [h3]; exact List.mem_cons_self ..)
      simpa [kBounded] using this
    refine ⟨fun r hr => hpk r ?_, fun h => absurd rfl h, fun h => ?_,
      show s.queue.length + (cs.filterMap (convertAudioFrame ctx.tb)).length ≤ 10 + k
        by omega⟩
    · rw [h3]
      exact List.mem_cons_of_mem _ hr
    · simp at h
  | push f rest h1 h2 =>
    have hl : s.pending.length = rest.length + 1 := by rw [h2]; rfl
    refine ⟨hpk, fun h => absurd h1 h, fun h => ?_, ?_⟩
    · rw [h1] at h
      cases h
    · show (s.queue ++ [f]).length + rest.length ≤ 10 + k
      simp only [List.length_append, List.length_singleton]
      omega
  | pushDone h1 h2 =>
    refine ⟨hpk, fun _ => h2, fun h => ?_, hlen⟩
    simp at h
  | pop f rest h1 =>
    have hl : s.queue.length = rest.length + 1 := by rw [h1]; rfl
    refine ⟨hpk, hpend, fun h => ?_,
      show rest.length + s.pending.length ≤ 10 + k by omega⟩
    rcases hsc h with h' | h'
    · exact Or.inl h'
    · exact Or.inr (show rest.length ≤ 10 by omega)
  | setStop =>
    exact ⟨hpk, hpend, fun _ => Or.inl rfl, hlen⟩

lemma LoopInv_reach (ctx : Ctx) (k : Nat) (s s' : LoopState)
    (h : LoopReach ctx s s') (hinv : LoopInv ctx.tb k s) :
    LoopInv ctx.tb k s' := by
  induction h with
  | refl => exact hinv
  | tail _ hstep ih =>
    obtain ⟨l, hl⟩ := hstep
    exact LoopInv_step ctx k _ _ l hl ih

lemma reach_single (ctx : Ctx) (a b : LoopState) (l : Label)
    (h : Step ctx a l b) : LoopReach ctx a b :=
  Relation.ReflTransGen.single ⟨l, h⟩

/-- Inside the push phase the producer pushes all pending frames without
any watermark check: the frames `pend1` move from `pending` to the queue
regardless of the queue length. -/
lemma reach_pushes (ctx : Ctx) (pend1 : List AudioFrame) :
    ∀ (q pend2 : List AudioFrame) (pkts : List ReadResult) (stop : Bool),
    LoopReach ctx ⟨q, pend1 ++ pend2, pkts, stop, .pushing⟩
      ⟨q ++ pend1, pend2, pkts, stop, .pushing⟩ := by
  induction pend1 with
  | nil =>
    intro q pend2 pkts stop
    simpa using Relation.ReflTransGen.refl
      (a := LoopState.mk q pend2 pkts stop .pushing)
  | cons f t ih =>
    intro q pend2 pkts stop
    refine Relation.ReflTransGen.head
      (b := ⟨q ++ [f], t ++ pend2, pkts, stop, .pushing⟩) ⟨.push f, ?_⟩ ?_
    · exact Step.push ⟨q, (f :: t) ++ pend2, pkts, stop, .pushing⟩ f (t ++ pend2)
        rfl rfl
    · have := ih (q ++ [f]) pend2 pkts stop
      simpa [List.append_assoc] using this

/-- Success case of `seekToTime`, fully described: reports success,
clears the queue and the partially consumed block, sets the clock to the
target, and ends up playing if and only if it was playing before. -/
lemma seekToTime_true (s : AudioDecoderState) (t : ℚ)
    (h : s.fileOpen = true) :
    (seekToTime s t true).1 = true ∧
    (seekToTime s t true).2.currentTime = t ∧
    (seekToTime s t true).2.audioFrameQueue = [] ∧
    (seekToTime s t true).2.audioBuffer = [] ∧
    (seekToTime s t true).2.bufferPosition = 0 ∧
    isPlaying (seekToTime s t true).2 = isPlaying s ∧
    (seekToTime s t true).2.playbackStarted = s.playbackStarted := by
  rcases hs : s.playbackStarted with _ | _ <;>
    rcases hp : s.playbackPaused with _ | _ <;>
      simp [seekToTime, isPlaying, pausePlayback, resumePlayback, h, hs, hp]

/-- Failure cases of `seekToTime`: the clock, the queue and
`playbackStarted` are untouched, and — when a file is open, i.e. the
failure came from `av_seek_frame` — the decoder is left paused (the
function returns before the `resumePlayback` call). -/
lemma seekToTime_false (s : AudioDecoderState) (t : ℚ) (ok : Bool)
    (h : (seekToTime s t ok).1 = false) :
    (seekToTime s t ok).2.currentTime = s.currentTime ∧
    (seekToTime s t ok).2.audioFrameQueue = s.audioFrameQueue ∧
    (seekToTime s t ok).2.playbackStarted = s.playbackStarted ∧
    (s.fileOpen = true → isPlaying (seekToTime s t ok).2 = false) := by
  rcases ho : s.fileOpen with _ | _ <;>
    rcases hok : ok with _ | _ <;>
      rcases hs : s.playbackStarted with _ | _ <;>
        rcases hp : s.playbackPaused with _ | _ <;>
          simp_all [seekToTime, isPlaying, pausePlayback, resumePlayback]

end AudioDecoder

/-- A sample frame for concrete evaluations. -/
def sampleFrame : AudioFrame := ⟨[1, 2, 3, 4], 1, 1⟩

/-- A decoder state in the middle of playback: playing, clock at `0`, one
byte of the current block left, one frame with timestamp `1` queued. -/
def samplePlayState : AudioDecoderState :=
  { fileOpen := true
    isDecoding := true
    playbackStarted := true
    playbackPaused := false
    shouldStop := false
    currentTime := 0
    audioFrameQueue := [sampleFrame]
    audioBuffer := [9, 9]
    bufferPosition := 1 }

/-- The same state with playback paused. -/
def samplePausedState : AudioDecoderState :=
  { samplePlayState with playbackPaused := true }


/-- C3: every invocation of the output callback first zeroes the
destination buffer; when paused it returns at once with the whole buffer
silent and the state (queue, clock, cursor) unchanged; otherwise it fills
a prefix with the available block bytes in FIFO order and every byte not
covered by block data stays zero — and the callback has no error result
(`fillAudioBuffer` returns only the buffer and the new state). -/
theorem C3_output_callback (s : AudioDecoderState) (len : Nat) :
    (s.playbackPaused = true →
      AudioDecoder.fillAudioBuffer s len = (List.replicate len 0, s)) ∧
    (AudioDecoder.fillAudioBuffer s len).1.length = len ∧
    (s.playbackPaused = false →
      (AudioDecoder.fillAudioBuffer s len).1 =
        (AudioDecoder.availData s).take len ++
          List.replicate (len - (AudioDecoder.availData s).length) 0) :=
  ⟨AudioDecoder.fillAudioBuffer_paused s len,
    AudioDecoder.fillAudioBuffer_length s len,
    AudioDecoder.fillAudioBuffer_stream s len⟩

/-- Witness for C3 at a concrete paused state and a concrete playing
state whose data runs out mid-fill (5 bytes available, 8 requested: the
remaining 3 bytes are silence). -/
theorem C3_witness :
    AudioDecoder.fillAudioBuffer samplePausedState 8 =
      (List.replicate 8 0, samplePausedState) ∧
    (AudioDecoder.fillAudioBuffer samplePlayState 8).1 =
      [9, 1, 2, 3, 4, 0, 0, 0] := by
  constructor
  · exact (C3_output_callback samplePausedState 8).1 rfl
  · rw [(C3_output_callback samplePlayState 8).2.2 rfl]
    decide

/-- C4: a successful `seekToTime t` on an open stream reports success,
clears the frame queue and the partially consumed block, sets the
playback clock to exactly `t` (so `getCurrentTime` read right after
returns `t`), and resumes if and only if it was playing before the call.
The decoder-side read-position seek and the codec flush act on the
external FFmpeg contexts; the success oracle of `av_seek_frame` is the
`true` argument. -/
theorem C4_seek_success (s : AudioDecoderState) (t : ℚ)
    (h : s.fileOpen = true) :
    (AudioDecoder.seekToTime s t true).1 = true ∧
    AudioDecoder.getCurrentTime (AudioDecoder.seekToTime s t true).2 = t ∧
    (AudioDecoder.seekToTime s t true).2.audioFrameQueue = [] ∧
    (AudioDecoder.seekToTime s t true).2.audioBuffer = [] ∧
    (AudioDecoder.seekToTime s t true).2.bufferPosition = 0 ∧
    AudioDecoder.isPlaying (AudioDecoder.seekToTime s t true).2 =
      AudioDecoder.isPlaying s := by
  have h1 := AudioDecoder.seekToTime_true s t h
  exact ⟨h1.1, h1.2.1, h1.2.2.1, h1.2.2.2.1, h1.2.2.2.2.1, h1.2.2.2.2.2.1⟩

/-- Witness for C4: seek to `7` in the sample playing state. -/
theorem C4_witness :
    (AudioDecoder.seekToTime samplePlayState 7 true).1 = true ∧
    AudioDecoder.getCurrentTime
      (AudioDecoder.seekToTime samplePlayState 7 true).2 = 7 ∧
    (AudioDecoder.seekToTime samplePlayState 7 true).2.audioFrameQueue = [] ∧
    (AudioDecoder.seekToTime samplePlayState 7 true).2.audioBuffer = [] ∧
    (AudioDecoder.seekToTime samplePlayState 7 true).2.bufferPosition = 0 ∧
    AudioDecoder.isPlaying (AudioDecoder.seekToTime samplePlayState 7 true).2 =
      AudioDecoder.isPlaying samplePlayState :=
  C4_seek_success samplePlayState 7 rfl

/-- C5: under the queue-order invariant (timestamps in the queue are
non-decreasing and not behind the clock — the spec's AudioBlock
invariant), the playback clock readings across any sequence of output
callback invocations are monotonically non-decreasing: no callback ever
moves the clock backwards. -/
theorem C5_clock_monotone (s : AudioDecoderState) (lens : List Nat)
    (h : AudioDecoder.ClockInv s) :
    List.Chain' (· ≤ ·)
      (s.currentTime :: AudioDecoder.fillTrace s lens) := by
  induction lens generalizing s with
  | nil =>
    simp [AudioDecoder.fillTrace]
  | cons len rest ih =>
    rw [AudioDecoder.fillTrace, List.chain'_cons]
    have hm := AudioDecoder.fillAudioBuffer_mono s len h
    exact ⟨hm.1, ih _ hm.2⟩

/-- Witness for C5: two consecutive callback invocations on the sample
playing state. -/
theorem C5_witness :
    AudioDecoder.ClockInv samplePlayState ∧
    List.Chain' (· ≤ ·)
      (samplePlayState.currentTime ::
        AudioDecoder.fillTrace samplePlayState [4, 4]) := by
  have hinv : AudioDecoder.ClockInv samplePlayState := by
    unfold AudioDecoder.ClockInv
    simp [samplePlayState, sampleFrame]
  exact ⟨hinv, C5_clock_monotone samplePlayState [4, 4] hinv⟩

/-- A playing decoder on which `av_seek_frame` will fail. -/
def seekFailState : AudioDecoderState :=
  { fileOpen := true
    isDecoding := true
    playbackStarted := true
    playbackPaused := false
    shouldStop := false
    currentTime := 2
    audioFrameQueue := [sampleFrame]
    audioBuffer := []
    bufferPosition := 0 }

/-- Counterexample to C6: when `av_seek_frame` fails on a playing
decoder, `seekToTime` returns `false` and leaves the clock unchanged,
but the playback state is *not* retained: the decoder was paused before
the seek and the failure path returns without resuming, so `isPlaying`
flips from `true` to `false`. -/
theorem C6_counterexample :
    (AudioDecoder.seekToTime seekFailState 3 false).1 = false ∧
    AudioDecoder.isPlaying seekFailState = true ∧
    AudioDecoder.isPlaying (AudioDecoder.seekToTime seekFailState 3 false).2 =
      false ∧
    AudioDecoder.getCurrentTime
      (AudioDecoder.seekToTime seekFailState 3 false).2 =
      AudioDecoder.getCurrentTime seekFailState := by
  decide

/-- C6 as amended: when `seekToTime` fails, the playback position
(`currentTime`), the queue and `playbackStarted` are unchanged and the
failure is reported; but the paused/playing flag is not retained — if a
file is open (failure from `av_seek_frame`), a previously playing
decoder is left paused, because the failure path returns before
`resumePlayback`. -/
theorem C6_seek_failure (s : AudioDecoderState) (t : ℚ) (ok : Bool)
    (h : (AudioDecoder.seekToTime s t ok).1 = false) :
    AudioDecoder.getCurrentTime (AudioDecoder.seekToTime s t ok).2 =
      AudioDecoder.getCurrentTime s ∧
    (AudioDecoder.seekToTime s t ok).2.audioFrameQueue = s.audioFrameQueue ∧
    (AudioDecoder.seekToTime s t ok).2.playbackStarted = s.playbackStarted ∧
    (s.fileOpen = true →
      AudioDecoder.isPlaying (AudioDecoder.seekToTime s t ok).2 = false) :=
  AudioDecoder.seekToTime_false s t ok h

/-- Witness for C6 (amended) at the concrete failing seek. -/
theorem C6_witness :
    AudioDecoder.getCurrentTime
      (AudioDecoder.seekToTime seekFailState 3 false).2 =
      AudioDecoder.getCurrentTime seekFailState ∧
    (AudioDecoder.seekToTime seekFailState 3 false).2.audioFrameQueue =
      seekFailState.audioFrameQueue ∧
    (AudioDecoder.seekToTime seekFailState 3 false).2.playbackStarted =
      seekFailState.playbackStarted ∧
    AudioDecoder.isPlaying
      (AudioDecoder.seekToTime seekFailState 3 false).2 = false := by
  have h := C6_seek_failure seekFailState 3 false (by decide)
  exact ⟨h.1, h.2.1, h.2.2.1, h.2.2.2 rfl⟩

lemma AudioDecoder.stopPlayback_fileOpen (s : AudioDecoderState) :
    (AudioDecoder.stopPlayback s).fileOpen = s.fileOpen := by
  unfold AudioDecoder.stopPlayback
  split <;> rfl

lemma AudioDecoder.pausePlayback_time (s : AudioDecoderState) :
    (AudioDecoder.pausePlayback s).currentTime = s.currentTime := by
  unfold AudioDecoder.pausePlayback
  split <;> rfl

lemma VideoDecoder.seekToTime_frameTime (v : VideoDecoderState) (ok : Bool) :
    ((VideoDecoder.seekToTime v ok).2).frameTime = v.frameTime := by
  rcases ho : v.isOpen with _ | _ <;> rcases hk : ok with _ | _ <;>
    simp [VideoDecoder.seekToTime, ho, hk]

/-- A player with only an audio stream, mid-playback. -/
def audioOnlyState : MediaPlayerState :=
  { playing := true
    muted := false
    volume := 1
    hasVideo := false
    hasAudio := true
    video := ⟨false, false, 0, false⟩
    audio := samplePlayState }

/-- A player with both streams open: the video decoder's last decoded
frame sits at `1` second while the audio clock reads `2` seconds. -/
def bothStreamsState : MediaPlayerState :=
  { playing := true
    muted := false
    volume := 1
    hasVideo := true
    hasAudio := true
    video := ⟨true, true, 1, false⟩
    audio := { samplePlayState with currentTime := 2 } }

/-- Counterexample to C8: on a source with both audio and video streams
`MediaPlayer::getCurrentTime` returns the video decoder's frame time,
not the audio PlaybackClock. -/
theorem C8_counterexample :
    bothStreamsState.hasVideo = true ∧
    bothStreamsState.hasAudio = true ∧
    MediaPlayer.getCurrentTime bothStreamsState ≠
      AudioDecoder.getCurrentTime bothStreamsState.audio := by
  decide

/-- C8 as amended: `MediaPlayer::getCurrentTime` is a pure (hence
non-blocking) read that returns the audio clock only for audio-only
sources; whenever a video stream is present it returns the video
decoder's last-frame time instead. -/
theorem C8_current_time (m : MediaPlayerState) :
    (m.hasVideo = false → m.hasAudio = true →
      MediaPlayer.getCurrentTime m = AudioDecoder.getCurrentTime m.audio) ∧
    (m.hasVideo = true →
      MediaPlayer.getCurrentTime m = VideoDecoder.getCurrentTime m.video) := by
  constructor
  · intro hv ha
    simp [MediaPlayer.getCurrentTime, AudioDecoder.getCurrentTime, hv, ha]
  · intro hv
    simp [MediaPlayer.getCurrentTime, hv]

/-- Witness for C8 (amended) on the audio-only and the two-stream
states. -/
theorem C8_witness :
    MediaPlayer.getCurrentTime audioOnlyState =
      AudioDecoder.getCurrentTime audioOnlyState.audio ∧
    MediaPlayer.getCurrentTime bothStreamsState =
      VideoDecoder.getCurrentTime bothStreamsState.video :=
  ⟨(C8_current_time audioOnlyState).1 rfl rfl,
    (C8_current_time bothStreamsState).2 rfl⟩

/-- C9: `MediaPlayer::setVolume` stores its argument clamped to `[0, 1]`
(so `getVolume` always lies in `[0, 1]`, and equals the argument when the
argument already lies in the interval); the volume is recorded only — the
audio decoder state is untouched, and the output callback copies block
bytes verbatim (no gain stage), independent of any volume value. -/
theorem C9_volume (m : MediaPlayerState) (v : ℚ) :
    0 ≤ MediaPlayer.getVolume (MediaPlayer.setVolume m v) ∧
    MediaPlayer.getVolume (MediaPlayer.setVolume m v) ≤ 1 ∧
    (0 ≤ v → v ≤ 1 → MediaPlayer.getVolume (MediaPlayer.setVolume m v) = v) ∧
    (MediaPlayer.setVolume m v).audio = m.audio ∧
    (∀ s len, s.playbackPaused = false →
      (AudioDecoder.fillAudioBuffer s len).1 =
        (AudioDecoder.availData s).take len ++
          List.replicate (len - (AudioDecoder.availData s).length) 0) := by
  refine ⟨?_, ?_, fun h0 h1 => ?_, rfl,
    fun s len h => AudioDecoder.fillAudioBuffer_stream s len h⟩ <;>
    · simp only [MediaPlayer.getVolume, MediaPlayer.setVolume, MediaPlayer.clamp]
      split_ifs <;> linarith

/-- Witness for C9: out-of-range and in-range volume values, and the
verbatim byte copy of a concrete callback. -/
theorem C9_witness :
    0 ≤ MediaPlayer.getVolume (MediaPlayer.setVolume audioOnlyState 2) ∧
    MediaPlayer.getVolume (MediaPlayer.setVolume audioOnlyState 2) ≤ 1 ∧
    MediaPlayer.getVolume (MediaPlayer.setVolume audioOnlyState (1 / 2)) =
      1 / 2 ∧
    (MediaPlayer.setVolume audioOnlyState 2).audio = audioOnlyState.audio ∧
    (AudioDecoder.fillAudioBuffer samplePlayState 5).1 = [9, 1, 2, 3, 4] := by
  have h2 := C9_volume audioOnlyState 2
  have hh := C9_volume audioOnlyState (1 / 2)
  refine ⟨h2.1, h2.2.1, hh.2.2.1 (by norm_num) (by norm_num), h2.2.2.2.1, ?_⟩
  rw [h2.2.2.2.2 samplePlayState 5 rfl]
  decide

/-- A player with both streams whose video decoder's last decoded frame
is at `5` seconds. -/
def bothStreamsPlayedState : MediaPlayerState :=
  { playing := true
    muted := false
    volume := 1
    hasVideo := true
    hasAudio := true
    video := ⟨true, true, 5, false⟩
    audio := { samplePlayState with currentTime := 3 } }

/-- Counterexample to C10: after `MediaPlayer::stop` on an open file with
a video stream, `getCurrentTime` does not return `0`: it reads the video
decoder's stale last-frame time (`5`), which `VideoDecoder::seekToTime(0)`
never resets, even though the audio clock was reset to `0`. -/
theorem C10_counterexample :
    MediaPlayer.getCurrentTime
      (MediaPlayer.stop bothStreamsPlayedState true true) = 5 ∧
    (MediaPlayer.stop bothStreamsPlayedState true true).audio.currentTime =
      0 := by
  decide

/-- C10 as amended: `stop` on open audio (with the audio `av_seek_frame`
succeeding) seeks both decoders to `0`, resets the audio clock to `0`
and clears `playing`; `getCurrentTime` afterwards returns `0` for
audio-only media — but the video decoder's last-frame time is left
untouched, so with video present `getCurrentTime` keeps the stale
value.  `pause`, by contrast, keeps the current position. -/
theorem C10_stop_rewind (m : MediaPlayerState) (vOk : Bool)
    (ha : m.hasAudio = true) (hopen : m.audio.fileOpen = true) :
    (MediaPlayer.stop m vOk true).audio.currentTime = 0 ∧
    (MediaPlayer.stop m vOk true).playing = false ∧
    (m.hasVideo = false →
      MediaPlayer.getCurrentTime (MediaPlayer.stop m vOk true) = 0) ∧
    (MediaPlayer.stop m vOk true).video.frameTime = m.video.frameTime ∧
    (MediaPlayer.pause m).audio.currentTime = m.audio.currentTime := by
  have hfo : (AudioDecoder.stopPlayback m.audio).fileOpen = true := by
    rw [AudioDecoder.stopPlayback_fileOpen]
    exact hopen
  have hseek := AudioDecoder.seekToTime_true (AudioDecoder.stopPlayback m.audio) 0 hfo
  rcases hv : m.hasVideo with _ | _ <;>
    rcases hvo : m.video.isOpen with _ | _ <;>
      rcases hk : vOk with _ | _ <;>
        rcases hp : m.playing with _ | _ <;>
          simp [MediaPlayer.stop, MediaPlayer.pause, MediaPlayer.getCurrentTime,
            AudioDecoder.getCurrentTime, VideoDecoder.seekToTime,
            AudioDecoder.pausePlayback_time, ha, hv, hvo, hk, hp, hfo,
            hseek.2.1]

/-- Witness for C10 (amended) on the audio-only state. -/
theorem C10_witness :
    (MediaPlayer.stop audioOnlyState true true).audio.currentTime = 0 ∧
    (MediaPlayer.stop audioOnlyState true true).playing = false ∧
    MediaPlayer.getCurrentTime (MediaPlayer.stop audioOnlyState true true) =
      0 ∧
    (MediaPlayer.stop audioOnlyState true true).video.frameTime =
      audioOnlyState.video.frameTime ∧
    (MediaPlayer.pause audioOnlyState).audio.currentTime =
      audioOnlyState.audio.currentTime := by
  have h := C10_stop_rewind audioOnlyState true rfl rfl
  exact ⟨h.1, h.2.1, h.2.2.1 rfl, h.2.2.2.1, h.2.2.2.2⟩

/-- A conversion input on which `swr_convert` reports a fatal error
(`converted < 0`) although samples were expected (`outSamples > 0`). -/
def fatalConv : AudioDecoder.ConvInput := ⟨5, -1, [1, 2], 7⟩

/-- A conversion input that merely produces no samples
(`swr_get_out_samples ≤ 0`), the benign case. -/
def benignConv : AudioDecoder.ConvInput := ⟨0, 0, [], 7⟩

/-- Counterexample to C7: a fatal `swr_convert` error inside
`convertAudioFrame` does not re-propagate — `decodeNextFrame` still
returns `true` (continue) with nothing enqueued, an outcome
indistinguishable from the benign zero-samples case; the error is
silently dropped. -/
theorem C7_counterexample :
    AudioDecoder.convertAudioFrame 1 fatalConv = none ∧
    0 < fatalConv.outSamples ∧
    fatalConv.converted < 0 ∧
    AudioDecoder.decodeNextFrame 0 1 (.packet 0 true [fatalConv]) [] =
      (true, []) ∧
    AudioDecoder.decodeNextFrame 0 1 (.packet 0 true [fatalConv]) [] =
      AudioDecoder.decodeNextFrame 0 1 (.packet 0 true [benignConv]) [] := by
  decide

/-- C7 as amended: every conversion failure — the fatal `swr_convert`
error just like the benign zero-samples case — is swallowed:
`decodeNextFrame` reports success for any audio packet whose
`avcodec_send_packet` succeeded, and frames whose conversion fails
contribute nothing to the queue. -/
theorem C7_convert_error_swallowed (idx : Int) (tb : ℚ) (i : Int)
    (cs : List AudioDecoder.ConvInput) (q : List AudioFrame)
    (hall : ∀ c ∈ cs, AudioDecoder.convertAudioFrame tb c = none) :
    (AudioDecoder.decodeNextFrame idx tb (.packet i true cs) q).1 = true ∧
    (AudioDecoder.decodeNextFrame idx tb (.packet i true cs) q).2 = q := by
  by_cases h : i = idx
  · simp [AudioDecoder.decodeNextFrame, h, List.filterMap_eq_nil_iff.mpr hall]
  · simp [AudioDecoder.decodeNextFrame, h]

/-- Witness for C7 (amended): the fatally failing conversion leaves the
queue as it was and the loop continuing. -/
theorem C7_witness :
    (AudioDecoder.decodeNextFrame 0 1 (.packet 0 true [fatalConv])
      [sampleFrame]).1 = true ∧
    (AudioDecoder.decodeNextFrame 0 1 (.packet 0 true [fatalConv])
      [sampleFrame]).2 = [sampleFrame] :=
  C7_convert_error_swallowed 0 1 0 [fatalConv] [sampleFrame] (by decide)

/-- The loop context used in concrete runs: audio stream index `0`, time
base `1`. -/
def ctx0 : AudioDecoder.Ctx := ⟨0, 1⟩

/-- An input containing a single audio packet on which
`avcodec_send_packet` fails — one bad packet, no end-of-stream. -/
def badPacketRun : List AudioDecoder.ReadResult := [.packet 0 false []]

/-- Counterexample to C1: running `decodingLoop` on an input whose only
event is a single bad packet (an `avcodec_send_packet` failure, no
end-of-stream, stop never signalled) reaches loop exit with cause
`sendErr` — the loop terminates because of one bad packet. -/
theorem C1_counterexample :
    ¬ (∀ s : AudioDecoder.LoopState,
        AudioDecoder.LoopReach ctx0 (AudioDecoder.initLoop badPacketRun) s →
        s.pc ≠ .done .sendErr) := by
  intro hclaim
  refine hclaim ⟨[], [], [], false, .done .sendErr⟩ ?_ rfl
  refine Relation.ReflTransGen.head
    (b := ⟨[], [], badPacketRun, false, .atStopCheck⟩) ⟨.checkPass, ?_⟩ ?_
  · exact AudioDecoder.Step.checkPass (AudioDecoder.initLoop badPacketRun)
      rfl rfl (by decide)
  · exact Relation.ReflTransGen.single
      ⟨.readSendErr, AudioDecoder.Step.readSendErr
        ⟨[], [], badPacketRun, false, .atStopCheck⟩ [] [] rfl rfl rfl⟩

/-- Returns `true` exactly on the loop-exit program counter. -/
def AudioDecoder.isDone : AudioDecoder.PC → Bool
  | .done _ => true
  | _ => false

/-- The head of the input is an audio packet whose
`avcodec_send_packet` fails. -/
def AudioDecoder.headAudioSendFailure (ctx : AudioDecoder.Ctx) :
    List AudioDecoder.ReadResult → Prop
  | .packet i false _ :: _ => i = ctx.idx
  | _ => False

/-- C1 as amended: the decoding loop exits only by observing the stop
flag, by reading end-of-stream, or by an `avcodec_send_packet` failure
on an audio packet.  In particular non-audio packets and frames whose
conversion fails never terminate the loop — but a single bad packet at
the send stage does, contrary to the original claim. -/
theorem C1_loop_exit_causes (ctx : AudioDecoder.Ctx)
    (s s' : AudioDecoder.LoopState) (l : AudioDecoder.Label)
    (c : AudioDecoder.ExitCause)
    (hnd : AudioDecoder.isDone s.pc = false)
    (hstep : AudioDecoder.Step ctx s l s')
    (hdone : s'.pc = .done c) :
    s.shouldStop = true ∨
    s.packets.head? = some .eof ∨
    AudioDecoder.headAudioSendFailure ctx s.packets := by
  cases hstep with
  | checkExit h1 h2 => exact Or.inl h2
  | checkPass h1 h2 h3 => simp at hdone
  | checkBlock h1 h2 h3 => simp at hdone
  | wake h1 h2 => simp at hdone
  | stopObserved h1 h2 => exact Or.inl h2
  | readEof rest h1 h2 h3 =>
    refine Or.inr (Or.inl ?_)
    rw [h3]
    rfl
  | readNonAudio i sendOk cs rest h1 h2 h3 h4 => simp at hdone
  | readSendErr cs rest h1 h2 h3 =>
    refine Or.inr (Or.inr ?_)
    rw [h3]
    show ctx.idx = ctx.idx
    rfl
  | readFrames cs rest h1 h2 h3 => simp at hdone
  | push f rest h1 h2 => simp [h1] at hdone
  | pushDone h1 h2 => simp at hdone
  | pop f rest h1 =>
    simp only at hdone
    rw [hdone] at hnd
    simp [AudioDecoder.isDone] at hnd
  | setStop =>
    simp only at hdone
    rw [hdone] at hnd
    simp [AudioDecoder.isDone] at hnd

/-- Witness for C1 (amended) at the concrete send-failure step. -/
theorem C1_witness :
    (⟨[], [], badPacketRun, false,
        .atStopCheck⟩ : AudioDecoder.LoopState).shouldStop = true ∨
    (⟨[], [], badPacketRun, false,
        .atStopCheck⟩ : AudioDecoder.LoopState).packets.head? = some .eof ∨
    AudioDecoder.headAudioSendFailure ctx0 badPacketRun :=
  C1_loop_exit_causes ctx0 ⟨[], [], badPacketRun, false, .atStopCheck⟩
    ⟨[], [], [], false, .done .sendErr⟩ .readSendErr .sendErr rfl
    (AudioDecoder.Step.readSendErr
      ⟨[], [], badPacketRun, false, .atStopCheck⟩ [] [] rfl rfl rfl) rfl

/-- A conversion input that converts successfully. -/
def goodConv : AudioDecoder.ConvInput := ⟨1, 1, [0, 0], 0⟩

/-- The frame `goodConv` converts to under `ctx0`. -/
def goodFrame : AudioFrame := ⟨[0, 0], 0, 0⟩

/-- An input consisting of a single audio packet that decodes into 12
frames. -/
def burstRun : List AudioDecoder.ReadResult :=
  [.packet 0 true (List.replicate 12 goodConv)]

/-- The state with 11 frames already queued and one more push of the same
packet still pending. -/
def s11 : AudioDecoder.LoopState :=
  ⟨List.replicate 11 goodFrame, [goodFrame], [], false, .pushing⟩

lemma goodConv_converts :
    AudioDecoder.convertAudioFrame ctx0.tb goodConv = some goodFrame := by
  unfold AudioDecoder.convertAudioFrame
  norm_num [goodConv, goodFrame, ctx0]

lemma filterMap_replicate_goodConv (n : Nat) :
    (List.replicate n goodConv).filterMap
      (AudioDecoder.convertAudioFrame ctx0.tb) =
      List.replicate n goodFrame := by
  induction n with
  | zero => rfl
  | succ n ih =>
    rw [List.replicate_succ, List.replicate_succ, List.filterMap_cons,
      goodConv_converts, ih]

lemma reach_s11 :
    AudioDecoder.LoopReach ctx0 (AudioDecoder.initLoop burstRun) s11 := by
  have hpend : (List.replicate 12 goodConv).filterMap
      (AudioDecoder.convertAudioFrame ctx0.tb) =
      List.replicate 11 goodFrame ++ [goodFrame] := by
    rw [filterMap_replicate_goodConv 12]
    exact List.replicate_succ' ..
  refine Relation.ReflTransGen.head
    (b := ⟨[], [], burstRun, false, .atStopCheck⟩) ⟨.checkPass, ?_⟩ ?_
  · exact AudioDecoder.Step.checkPass (AudioDecoder.initLoop burstRun)
      rfl rfl (by decide)
  refine Relation.ReflTransGen.head
    (b := ⟨[], List.replicate 11 goodFrame ++ [goodFrame], [], false,
      .pushing⟩) ⟨.readFrames, ?_⟩ ?_
  · have h := @AudioDecoder.Step.readFrames ctx0
      ⟨[], [], burstRun, false, .atStopCheck⟩
      (List.replicate 12 goodConv) [] rfl rfl rfl
    exact hpend ▸ h
  · have h := AudioDecoder.reach_pushes ctx0 (List.replicate 11 goodFrame)
      [] [goodFrame] [] false
    simpa [s11] using h

/-- Counterexample to C2: in the run over `burstRun` the producer is
still pushing while the queue already holds 11 frames (beyond the high
watermark 10): the watermark is only checked between packets, so within
one packet's frames pushes continue regardless of the queue length —
the producer does not suspend once the length exceeds 10. -/
theorem C2_counterexample :
    ¬ (∀ (s s' : AudioDecoder.LoopState) (f : AudioFrame),
        AudioDecoder.LoopReach ctx0 (AudioDecoder.initLoop burstRun) s →
        AudioDecoder.Step ctx0 s (.push f) s' → s.queue.length ≤ 10) := by
  intro hclaim
  have hstep : AudioDecoder.Step ctx0 s11 (.push goodFrame)
      ⟨List.replicate 11 goodFrame ++ [goodFrame], [], [], false,
        .pushing⟩ :=
    AudioDecoder.Step.push s11 goodFrame [] rfl rfl
  have h := hclaim s11 _ goodFrame reach_s11 hstep
  simp [s11] at h

/-- C2 as amended: the watermark check happens once per packet, before
decoding it, so the queue is bounded not by the high watermark 10 but by
`10 + k` where `k` bounds the frames one packet can decode into: in
every reachable state of every interleaving of producer, consumer and
control steps over a `k`-bounded input, the queue length is at most
`10 + k`. -/
theorem C2_queue_bound (ctx : AudioDecoder.Ctx) (k : Nat)
    (pkts : List AudioDecoder.ReadResult) (s : AudioDecoder.LoopState)
    (hb : ∀ r ∈ pkts, AudioDecoder.kBounded ctx.tb k r)
    (hreach : AudioDecoder.LoopReach ctx (AudioDecoder.initLoop pkts) s) :
    s.queue.length ≤ 10 + k := by
  have hinv0 : AudioDecoder.LoopInv ctx.tb k (AudioDecoder.initLoop pkts) := by
    refine ⟨hb, fun _ => rfl, fun h => ?_, ?_⟩
    · simp [AudioDecoder.initLoop] at h
    · simp [AudioDecoder.initLoop]
  have hinv := AudioDecoder.LoopInv_reach ctx k _ s hreach hinv0
  have h4 := hinv.2.2.2
  omega

/-- Witness for C2 (amended): the reachable state `s11` of the
12-frame-packet run respects the bound `10 + 12`. -/
theorem C2_witness : s11.queue.length ≤ 10 + 12 := by
  have hb : ∀ r ∈ burstRun, AudioDecoder.kBounded ctx0.tb 12 r := by
    intro r hr
    simp [burstRun] at hr
    subst hr
    show ((List.replicate 12 goodConv).filterMap
      (AudioDecoder.convertAudioFrame ctx0.tb)).length ≤ 12
    decide
  exact C2_queue_bound ctx0 12 burstRun s11 hb reach_s11
